import Mathlib

/-!
Verification of the Dyson Sphere Program binary-data reader
(`dysonsphere.py`) against its specification.

The development shallowly embeds the byte-stream reader (`_Reader`), the
primitive decode snippets produced by `_Codegen`, the generated
`__init__` / `do_all` / `__str__` routines of `Object` subclasses, and the
module-level `do_all` / `find_all` helpers.  Byte streams are lists of
natural numbers below 256; a reader is a stream plus a cursor.  Python's
`BufferedReader.read(n)` is total: it returns at most `n` bytes and simply
returns the remaining bytes (possibly none) when the stream is short, so
`readBytes` below is total as well.  Operations that can raise a Python
exception (enum construction, UTF-8 decoding, `struct.unpack`) return
`Except`.
-/

namespace DysonSphere

/-- Python exceptions that the modelled code paths can raise. -/
inductive PyErr where
  | valueError
  | typeError
  | unicodeDecodeError
  | structError
deriving Repr, DecidableEq

/-- State of a `_Reader`: the underlying file contents and the cursor of the
buffered reader.  `dysonsphere.py` always reads sequentially. -/
structure RState where
  data : List Nat
  pos : Nat
deriving Repr, DecidableEq

/-- The bytes not yet consumed. -/
def RState.rem (s : RState) : List Nat := s.data.drop s.pos

/-- Model of `BufferedReader.read(size)` (`read_fun` in `_Reader`): returns
at most `size` bytes, fewer when the stream is exhausted, and everything to
EOF when `size` is negative.  It never raises on truncation. -/
def readBytes (s : RState) (n : Int) : List Nat × RState :=
  if n < 0 then (s.rem, ⟨s.data, s.data.length⟩)
  else ((s.rem.take n.toNat), ⟨s.data, s.pos + min n.toNat s.rem.length⟩)

/-- Model of Python `int.from_bytes(bs, 'little', signed=True)`.  The empty
byte string decodes to `0`. -/
def intFromBytesLE (bs : List Nat) : Int :=
  let u : Nat := bs.foldr (fun b acc => b + 256 * acc) 0
  if 2 ^ (8 * bs.length - 1) ≤ u then (u : Int) - 2 ^ (8 * bs.length) else (u : Int)

/-- `_Codegen.read_int32`: `int.from_bytes(read_fun(4), 'little', signed=True)`. -/
def read_int32 (s : RState) : Int × RState :=
  let (bs, s1) := readBytes s 4
  (intFromBytesLE bs, s1)

/-- `_Codegen.read_int64`: `int.from_bytes(read_fun(8), 'little', signed=True)`. -/
def read_int64 (s : RState) : Int × RState :=
  let (bs, s1) := readBytes s 8
  (intFromBytesLE bs, s1)

/-- `_Codegen.read_bool`: `bool(<read_int32>)`. -/
def read_bool (s : RState) : Bool × RState :=
  let (i, s1) := read_int32 s
  (i ≠ 0, s1)

/-- `_Codegen.read_float`: `unpack('f', read_fun(4))[0]`.  `struct.unpack`
raises `struct.error` unless exactly 4 bytes were read; the IEEE-754 value
itself is kept as its raw little-endian bytes. -/
def read_float (s : RState) : Except PyErr (List Nat × RState) :=
  let (bs, s1) := readBytes s 4
  if bs.length = 4 then .ok (bs, s1) else .error .structError

/-- `_Codegen.read_double`: `unpack('d', read_fun(8))[0]`, kept as raw bytes
like `read_float`. -/
def read_double (s : RState) : Except PyErr (List Nat × RState) :=
  let (bs, s1) := readBytes s 8
  if bs.length = 8 then .ok (bs, s1) else .error .structError

/-- Equality of `Except` results is decidable componentwise. -/
instance {ε α : Type} [DecidableEq ε] [DecidableEq α] : DecidableEq (Except ε α) :=
  fun a b =>
    match a, b with
    | .ok x, .ok y =>
      if h : x = y then isTrue (by rw [h]) else isFalse (by intro hh; cases hh; exact h rfl)
    | .error x, .error y =>
      if h : x = y then isTrue (by rw [h]) else isFalse (by intro hh; cases hh; exact h rfl)
    | .ok _, .error _ => isFalse (by intro hh; cases hh)
    | .error _, .ok _ => isFalse (by intro hh; cases hh)

/-- Conversion of the raw bytes to Lean's `ByteArray` for UTF-8 decoding. -/
def bytesToByteArray (bs : List Nat) : ByteArray :=
  ⟨⟨bs.map (fun b => UInt8.ofNat b)⟩⟩

/-- One strict UTF-8 decoding pass over `a` starting at index `i`, producing
the decoded characters.  Each step decodes one character with
`String.utf8DecodeChar?` (which enforces the strict rules Python's
`bytes.decode()` enforces: no overlong forms, no surrogates, no code point
above `0x10FFFF`) and advances by its byte width.  `fuel` bounds the
recursion; every character is at least one byte wide, so `a.size` steps
always suffice. -/
def utf8DecodeLoop (a : ByteArray) : Nat → Nat → Option (List Char)
  | 0, i => if i < a.size then none else some []
  | fuel + 1, i =>
    if i < a.size then
      match String.utf8DecodeChar? a i with
      | none => none
      | some c => (utf8DecodeLoop a fuel (i + c.utf8Size)).map (fun cs => c :: cs)
    else
      some []

/-- Model of Python `bytes.decode()` (UTF-8, strict): the decoded string, or
`none` where Python raises `UnicodeDecodeError`. -/
def pyDecode (bs : List Nat) : Option String :=
  let a := bytesToByteArray bs
  (utf8DecodeLoop a a.size 0).map (fun cs => String.mk cs)

/-- The string-reading statements generated by `_Codegen.read_string` (the
same logic as `_Codegen._read_base_string`):
`slen = int.from_bytes(read_fun(4), 'little', signed=True)`, then
`read_fun(slen).decode()`, then `if slen & 3: read_fun(-slen & 3)`.
Python `slen & 3` equals `slen % 4` (mathematical modulus) and
`-slen & 3` equals `(-slen) % 4`; `.decode()` raises
`UnicodeDecodeError` on invalid UTF-8.  A negative `slen` makes
`read_fun(slen)` read to EOF, which `readBytes` reproduces. -/
def read_string (s : RState) : Except PyErr (String × RState) :=
  let (lb, s1) := readBytes s 4
  let slen := intFromBytesLE lb
  let (bs, s2) := readBytes s1 slen
  match pyDecode bs with
  | none => .error .unicodeDecodeError
  | some str =>
    if slen % 4 ≠ 0 then
      let (_, s3) := readBytes s2 ((-slen) % 4)
      .ok (str, s3)
    else
      .ok (str, s2)

/-- The 16-byte prefix `_Reader.__init__` compares against:
a 12-byte zero PPtr, a `0x01` enabled byte, and 3 padding bytes. -/
def envelopePattern : List Nat :=
  List.replicate 12 0 ++ [1] ++ List.replicate 3 0

/-- `_Reader.__init__` after opening the file: peek the buffer (consuming
nothing); if the first 16 bytes equal `envelopePattern`, consume 28 bytes
(the pattern plus a second 12-byte PPtr) and then one length-prefixed
string (the embedded file name).  Otherwise leave the cursor at offset 0.
Returns the reader state at which payload decoding begins. -/
def readerInit (data : List Nat) : Except PyErr RState :=
  let s : RState := ⟨data, 0⟩
  if data.take 16 = envelopePattern then
    let (_, s1) := readBytes s 28
    match read_string s1 with
    | .error e => .error e
    | .ok (_, s2) => .ok s2
  else
    .ok s

/-- The members of the Python `IntEnum` `EItemType`. -/
inductive EItemType where
  | UNKNOWN | RESOURCE | MATERIAL | COMPONENT | PRODUCT | LOGISTICS
  | PRODUCTION | DECORATION | WEAPON | MATRIX | MONSTER
deriving Repr, DecidableEq

/-- The integer value of each `EItemType` member. -/
def EItemType.value : EItemType → Int
  | .UNKNOWN => 0
  | .RESOURCE => 1
  | .MATERIAL => 2
  | .COMPONENT => 3
  | .PRODUCT => 4
  | .LOGISTICS => 5
  | .PRODUCTION => 6
  | .DECORATION => 7
  | .WEAPON => 8
  | .MATRIX => 9
  | .MONSTER => 10

/-- Model of calling the `IntEnum` class `EItemType(i)`: Python looks the
value up among the members and raises `ValueError` when no member has that
value (plain `IntEnum` classes define no `_missing_` hook). -/
def eItemTypeOfInt (i : Int) : Option EItemType :=
  if i = 0 then some .UNKNOWN
  else if i = 1 then some .RESOURCE
  else if i = 2 then some .MATERIAL
  else if i = 3 then some .COMPONENT
  else if i = 4 then some .PRODUCT
  else if i = 5 then some .LOGISTICS
  else if i = 6 then some .PRODUCTION
  else if i = 7 then some .DECORATION
  else if i = 8 then some .WEAPON
  else if i = 9 then some .MATRIX
  else if i = 10 then some .MONSTER
  else none

/-- `_Codegen.read_enum`: `{cls_name}({read_int32})`.  The enum-class call
validates membership, so the generated decode raises `ValueError` on an
int32 with no matching member. -/
def read_enum (ofInt : Int → Option α) (s : RState) : Except PyErr (α × RState) :=
  let (i, s1) := read_int32 s
  match ofInt i with
  | none => .error .valueError
  | some e => .ok (e, s1)

/-- Model of the list comprehension `[<element> for i in range(n)]` driving
every generated array decode: `range(n)` is empty when `n ≤ 0`, which
`Int.toNat` reproduces. -/
def readLoop (dec : RState → Except PyErr (α × RState)) :
    Nat → RState → Except PyErr (List α × RState)
  | 0, st => .ok ([], st)
  | n + 1, st => do
    let (elt, st1) ← dec st
    let (rest, st2) ← readLoop dec n st1
    .ok (elt :: rest, st2)

/-- `_Codegen.read_array`: `[Cls(read_fun, tell_fun) for i in range(<read_int32>)]`,
parameterised by the element class's stream constructor. -/
def read_array (dec : RState → Except PyErr (α × RState)) (s : RState) :
    Except PyErr (List α × RState) :=
  let (n, s1) := read_int32 s
  readLoop dec n.toNat s1

/-- `_Codegen.read_array_int32`: `[<read_int32> for x in range(<read_int32>)]`. -/
def read_array_int32 (s : RState) : Except PyErr (List Int × RState) :=
  read_array (fun s0 => .ok (read_int32 s0)) s

/-- `_Codegen.read_array_double`: `[<read_double> for x in range(<read_int32>)]`. -/
def read_array_double (s : RState) : Except PyErr (List (List Nat) × RState) :=
  read_array read_double s

/-- The fields of `StringProto`, from its `_layout`:
`name:string, id:int32, sid:string, zh_cn:string, en_us:string, fr_fr:string`. -/
structure StringProtoR where
  name : String
  id : Int
  sid : String
  zh_cn : String
  en_us : String
  fr_fr : String
deriving Repr, DecidableEq

/-- The generated `StringProto.__init__(read_fun, tell_fun)` stream
constructor: decodes the six fields of `_layout` strictly in declared
order. -/
def decodeStringProto (s : RState) : Except PyErr (StringProtoR × RState) := do
  let (name, s1) ← read_string s
  let (id, s2) := read_int32 s1
  let (sid, s3) ← read_string s2
  let (zh_cn, s4) ← read_string s3
  let (en_us, s5) ← read_string s4
  let (fr_fr, s6) ← read_string s5
  .ok ({ name := name, id := id, sid := sid, zh_cn := zh_cn,
         en_us := en_us, fr_fr := fr_fr }, s6)

/-! Model of the generated `do_all` traversal.  `_Codegen.generate_do_all`
emits, for a class `C` with layout fields in declared order:
`fun(self, C)` first, then for each field whose declared type starts with
`object` the statements `tmp = self.f; if tmp: tmp.do_all(fun)`, and for
each field whose declared type starts with `array(` (an array of objects —
`array_int32`/`array_double` fields do not match) the statements
`arr = self.f; if arr: for tmp in arr: if tmp: tmp.do_all(fun)`.
Fields of any other declared type are not traversed.

A node carries its class name (the `cls_name` baked into the generated
code) and its fields in declared order; an object-typed slot is `null`
when it holds a falsy value (`None`, or the `0` a default construction
leaves there) — `Object` instances are always truthy since the class
defines neither `__bool__` nor `__len__`. -/

mutual
inductive Node : Type where
  | mk : String → List Field → Node
inductive Field : Type where
  | prim : Field
  | objF : ObjVal → Field
  | arrF : List ObjVal → Field
inductive ObjVal : Type where
  | null : ObjVal
  | node : Node → ObjVal
end

/-- The class name stored in a node. -/
def Node.ty : Node → String
  | .mk t _ => t

mutual
/-- The visit sequence of the generated `C.do_all(self, fun)`: `fun` is
called on `self` first, then on the traversable fields in declared order. -/
def nodeDoAll : Node → List Node
  | .mk t fs => .mk t fs :: fieldsDoAll fs

/-- Visits contributed by a list of fields, in declared order. -/
def fieldsDoAll : List Field → List Node
  | [] => []
  | f :: fs => fieldDoAll f ++ fieldsDoAll fs

/-- Visits contributed by one field: nothing for a non-traversable field,
nothing for a falsy object or element (`if tmp:` skips it), the recursive
traversal otherwise, elements in order for an array field. -/
def fieldDoAll : Field → List Node
  | .prim => []
  | .objF v => objValDoAll v
  | .arrF elems => elemsDoAll elems

/-- Visits contributed by the elements of an array field. -/
def elemsDoAll : List ObjVal → List Node
  | [] => []
  | v :: vs => objValDoAll v ++ elemsDoAll vs

/-- Visits contributed by one object slot. -/
def objValDoAll : ObjVal → List Node
  | .null => []
  | .node n => nodeDoAll n
end

/-- The argument of the module-level `do_all(obj, fun)`: a subtype of
`Object`, a `GameData` namedtuple (field name / value pairs, values being
the loaded `...ProtoSet` objects), or some other iterable of objects. -/
inductive Root : Type where
  | obj : Node → Root
  | gameData : List (String × Node) → Root
  | iter : List Node → Root

/-- The `GameData` branch of `do_all`:
`for k, val in obj._asdict().items(): if k == 'backers': continue;
for i in val: i.do_all(fun)`.  Each non-skipped `val` is a `...ProtoSet`
`Object`, and `Object` defines neither `__iter__` nor `__getitem__`, so
`for i in val` raises `TypeError` before any visit. -/
def gameDataDoAll : List (String × Node) → Except PyErr (List Node)
  | [] => .ok []
  | (k, _) :: rest =>
    if k = "backers" then gameDataDoAll rest
    else .error .typeError

/-- The module-level `do_all(obj, fun)` dispatcher, returning the sequence
of `fun(node, cls)` calls (each visited node carries its class), or the
exception it raises. -/
def do_all (root : Root) : Except PyErr (List Node) :=
  match root with
  | .obj n => .ok (nodeDoAll n)
  | .gameData entries => gameDataDoAll entries
  | .iter l => .ok (l.flatMap nodeDoAll)

/-- The module-level `find_all(obj, cls)`: runs `do_all(obj, find_fun)`
where `find_fun(res, res_cls)` appends `res` to an accumulator whenever
`res_cls == cls`; the accumulator grows in visit order. -/
def find_all (root : Root) (cls : String) : Except PyErr (List Node) :=
  match do_all root with
  | .error e => .error e
  | .ok visits =>
    .ok (visits.foldl (fun acc n => if n.ty = cls then acc ++ [n] else acc) [])

/-! Model of the generated `__init__` (default construction) and `__str__`
(compact render).  A field value is any Python value a record slot can
hold; a record is its slot assignment.  Floats are modelled as rationals
(only their truthiness matters here), `vector2f` tuples as `vtuple`. -/

/-- Python values stored in record slots. -/
inductive PyVal : Type where
  | vint : Int → PyVal
  | vbool : Bool → PyVal
  | vstr : String → PyVal
  | vfloat : ℚ → PyVal
  | vlist : List PyVal → PyVal
  | vtuple : List PyVal → PyVal
  | vnone : PyVal

/-- Python truthiness (`bool(value)`) of a slot value: zero numbers, empty
strings, empty lists / tuples, `False` and `None` are falsy. -/
def truthy : PyVal → Bool
  | .vint i => decide (i ≠ 0)
  | .vbool b => b
  | .vstr s => decide (s ≠ "")
  | .vfloat q => decide (q ≠ 0)
  | .vlist l => !l.isEmpty
  | .vtuple l => !l.isEmpty
  | .vnone => false

/-- A record type's layout: the `(name, type)` pairs parsed from `_layout`
by `Object.__init_subclass__`, with `()` appended to types that lack a
parenthesis (so `string` becomes `string()`, `enum(EItemType)` stays). -/
abbrev Layout : Type := List (String × String)

/-- Python `typ.startswith(pre)`, computed on the character lists. -/
def strStartsWith (typ pre : String) : Bool :=
  pre.data.isPrefixOf typ.data

/-- The default a field receives in `generate_init` when constructed
without a reader: `''` for `string...`, `[]` for `array...`, `False` for
`bool...`, and `0` for everything else. -/
def defaultValue (typ : String) : PyVal :=
  if strStartsWith typ "string" then .vstr ""
  else if strStartsWith typ "array" then .vlist []
  else if strStartsWith typ "bool" then .vbool false
  else .vint 0

/-- Slot lookup (`getattr`). -/
def getField : List (String × PyVal) → String → Option PyVal
  | [], _ => none
  | (k, v) :: rest, n => if k = n then some v else getField rest n

/-- Slot update (`setattr`): replaces the value of an existing slot and
leaves a record without that slot unchanged (real `setattr` would raise
`AttributeError` there; the theorems below only consider slots that
exist). -/
def setField : List (String × PyVal) → String → PyVal → List (String × PyVal)
  | [], _, _ => []
  | (k, v) :: rest, n, w =>
    if k = n then (k, w) :: setField rest n w else (k, v) :: setField rest n w

/-- The default-construction branch of the generated `__init__`
(`read_fun is None`): set every slot to its layout default in declared
order, then `for k, v in kwargs.items(): setattr(self, k, v)`. -/
def object_init (layout : Layout) (kwargs : List (String × PyVal)) :
    List (String × PyVal) :=
  kwargs.foldl (fun fields kv => setField fields kv.1 kv.2)
    (layout.map (fun p => (p.1, defaultValue p.2)))

/-- The sort key `__init_subclass__` gives field `i` named `n` when
building `_str_attrs`: `front_attrs.index(n) - 100` for
`('id', 'name', 'description')`, the declared index `i` otherwise. -/
def sortKey (i : Nat) (n : String) : Int :=
  if n = "id" then -100
  else if n = "name" then -99
  else if n = "description" then -98
  else (i : Int)

/-- The attribute order of `_str_attrs`: fields tagged with their sort key
and sorted.  Python's `list.sort` on `(key, name, typ)` tuples is modelled
by a stable sort on the key alone; keys are distinct whenever slot names
are (duplicate slots make `__slots__` creation fail), so the tie-breaking
components never matter. -/
def strAttrs (layout : Layout) : List String :=
  ((layout.enum.map (fun p => (sortKey p.1 p.2.1, p.2.1))).insertionSort
    (fun a b => a.1 ≤ b.1)).map (fun p => p.2)

/-- The attribute names `__str__` renders for a record whose slot values
are given by `vals`: the `_str_attrs` order, keeping exactly the truthy
values (`if not value: continue`). -/
def strNames (layout : Layout) (vals : String → PyVal) : List String :=
  (strAttrs layout).filter (fun n => truthy (vals n))

/-- The layout of `ItemProto` as `__init_subclass__` parses it. -/
def itemProtoLayout : Layout :=
  [("name", "string()"), ("id", "int32()"), ("sid", "string()"),
   ("type", "enum(EItemType)"), ("sub_id", "int32()"),
   ("mining_from", "string()"), ("produce_from", "string()"),
   ("stack_size", "int32()"), ("grade", "int32()"),
   ("upgrades", "array_int32()"), ("is_fluid", "bool()"),
   ("is_entity", "bool()"), ("can_build", "bool()"),
   ("build_in_gas", "bool()"), ("icon_path", "string()"),
   ("model_index", "int32()"), ("model_count", "int32()"),
   ("hp_max", "int32()"), ("ability", "int32()"),
   ("heat_value", "int64()"), ("potential", "int64()"),
   ("reactor_inc", "float()"), ("fuel_type", "int32()"),
   ("build_index", "int32()"), ("build_mode", "int32()"),
   ("grid_index", "int32()"), ("unlock_key", "int32()"),
   ("pre_tech_override", "int32()"), ("productive", "bool()"),
   ("mecha_material_id", "int32()"), ("desc_fields", "array_int32()"),
   ("description", "string()")]

/-- The layout of `StringProto` as `__init_subclass__` parses it. -/
def stringProtoLayout : Layout :=
  [("name", "string()"), ("id", "int32()"), ("sid", "string()"),
   ("zh_cn", "string()"), ("en_us", "string()"), ("fr_fr", "string()")]

/-! Helper lemmas about the reader primitives. -/

/-- Reading a nonnegative count takes exactly that many bytes when the
stream still holds them. -/
theorem readBytes_of_le (s : RState) (n : Int) (h0 : 0 ≤ n)
    (h : n.toNat ≤ s.rem.length) :
    readBytes s n = (s.rem.take n.toNat, ⟨s.data, s.pos + n.toNat⟩) := by
  have hlt : ¬(n < 0) := by omega
  simp [readBytes, hlt, Nat.min_eq_left h]

/-- Reading 4 bytes when at least 4 remain. -/
theorem readBytes_four (s : RState) (h : 4 ≤ s.rem.length) :
    readBytes s 4 = (s.rem.take 4, ⟨s.data, s.pos + 4⟩) := by
  have h4 : (4 : Int).toNat ≤ s.rem.length := by omega
  rw [readBytes_of_le s 4 (by omega) h4]
  rfl

/-- Reading an int32 when at least 4 bytes remain. -/
theorem read_int32_of_le (s : RState) (h : 4 ≤ s.rem.length) :
    read_int32 s = (intFromBytesLE (s.rem.take 4), ⟨s.data, s.pos + 4⟩) := by
  rw [read_int32, readBytes_four s h]

/-- Cursor advance composes with `List.drop`. -/
theorem rem_advance (s : RState) (k : Nat) :
    (RState.mk s.data (s.pos + k)).rem = s.rem.drop k := by
  simp [RState.rem, List.drop_drop, Nat.add_comm]

/-- Full characterisation of `read_string` on a well-formed encoding: a
nonnegative length `L` whose `L` payload bytes decode as UTF-8 and whose
`4 + L + ((-L) mod 4)` bytes are all present.  It succeeds with the decoded
payload and advances the cursor by exactly that many bytes. -/
theorem read_string_of_wf (s : RState) (L : Int) (str : String)
    (hL : intFromBytesLE (s.rem.take 4) = L) (h0 : 0 ≤ L)
    (hdec : pyDecode ((s.rem.drop 4).take L.toNat) = some str)
    (hlen : 4 + L.toNat + ((-L) % 4).toNat ≤ s.rem.length) :
    read_string s = .ok (str, ⟨s.data, s.pos + (4 + L.toNat + ((-L) % 4).toNat)⟩) := by
  rw [read_string, readBytes_four s (by omega)]
  simp only [hL]
  have hrem1 : (RState.mk s.data (s.pos + 4)).rem = s.rem.drop 4 := rem_advance s 4
  have hlen1 : L.toNat ≤ (RState.mk s.data (s.pos + 4)).rem.length := by
    rw [hrem1, List.length_drop]; omega
  rw [readBytes_of_le ⟨s.data, s.pos + 4⟩ L h0 hlen1]
  rw [hrem1, hdec]
  dsimp only
  have hrem2 : (RState.mk s.data (s.pos + 4 + L.toNat)).rem = s.rem.drop (4 + L.toNat) := by
    simp only [RState.rem, List.drop_drop]
    congr 1
    omega
  by_cases hmod : L % 4 = 0
  · rw [if_neg (by omega)]
    simp only [Except.ok.injEq, Prod.mk.injEq, RState.mk.injEq]
    exact ⟨trivial, trivial, by omega⟩
  · have hlen3 : ((-L) % 4).toNat ≤ (RState.mk s.data (s.pos + 4 + L.toNat)).rem.length := by
      rw [hrem2, List.length_drop]; omega
    rw [if_pos (by omega), readBytes_of_le ⟨s.data, s.pos + 4 + L.toNat⟩ ((-L) % 4) (by omega) hlen3]
    simp only [Except.ok.injEq, Prod.mk.injEq, RState.mk.injEq]
    exact ⟨trivial, trivial, by omega⟩

/-! ### C1 — truncation behaviour -/

/-- C1 counterexample.  The claim says `read(n)` fails with
`TruncatedInputError` when fewer than `n` bytes remain, and that stream
construction of a record from an exhausted stream fails and yields no
object.  Neither holds of the code: with a single byte `0x05` left,
`read(4)` returns that byte, and `StringProto(read_fun, tell_fun)` on an
already-empty stream completes, yielding a record (every string decodes as
`''`, the int32 as `0`). -/
theorem c1_counterexample :
    (readBytes ⟨[5], 0⟩ 4).1 = [5] ∧
    decodeStringProto ⟨[], 0⟩ =
      .ok ({ name := "", id := 0, sid := "", zh_cn := "", en_us := "",
             fr_fr := "" }, ⟨[], 0⟩) := by
  decide

/-- C1 amended: `read(n)` never raises on truncation — it returns the at
most `n` bytes still available (`BufferedReader.read` semantics); an int32
read at EOF decodes the empty byte string to `0`, and stream construction
of a `StringProto` from an exhausted stream completes, producing the
all-default record rather than failing.  No `TruncatedInputError` exists in
the program. -/
theorem c1_truncation_amended :
    (∀ (s : RState) (n : Nat), (readBytes s (n : Int)).1 = s.rem.take n) ∧
    (read_int32 ⟨[], 0⟩).1 = 0 ∧
    decodeStringProto ⟨[], 0⟩ =
      .ok ({ name := "", id := 0, sid := "", zh_cn := "", en_us := "",
             fr_fr := "" }, ⟨[], 0⟩) := by
  refine ⟨fun s n => ?_, by decide, by decide⟩
  have h0 : ¬((n : Int) < 0) := by omega
  simp [readBytes, h0]

/-! ### C2 — enum decoding -/

/-- Outside 0..10 no `EItemType` member exists, so the class lookup comes
up empty. -/
theorem eItemTypeOfInt_eq_none (i : Int) (h : ¬(0 ≤ i ∧ i ≤ 10)) :
    eItemTypeOfInt i = none := by
  unfold eItemTypeOfInt
  iterate 11 rw [if_neg (by omega)]

/-- C2 counterexample.  The claim says every int32, even one with no
matching member, is mapped into the enum unconditionally and decoding
completes.  In the code `read_enum` produces `EItemType(<int32>)`, and a
plain `IntEnum` call validates membership: for the int32 `11` (no
`EItemType` member) it raises `ValueError`, so decoding fails. -/
theorem c2_counterexample :
    read_enum eItemTypeOfInt ⟨[11, 0, 0, 0], 0⟩ = .error .valueError := by
  decide

/-- C2 amended: decoding an `enum(EItemType)` field reads an int32 and
constructs the member through the `EItemType` class, which does validate
membership — construction succeeds exactly for the values 0..10 carried by
members (and then yields the member with that value), and raises
`ValueError` for every other int32, aborting the decode. -/
theorem c2_enum_amended :
    (∀ i : Int, (eItemTypeOfInt i).isSome ↔ 0 ≤ i ∧ i ≤ 10) ∧
    (∀ (i : Int) (e : EItemType), eItemTypeOfInt i = some e → e.value = i) ∧
    read_enum eItemTypeOfInt ⟨[3, 0, 0, 0], 0⟩ =
      .ok (.COMPONENT, ⟨[3, 0, 0, 0], 4⟩) ∧
    read_enum eItemTypeOfInt ⟨[11, 0, 0, 0], 0⟩ = .error .valueError := by
  refine ⟨fun i => ?_, fun i e h => ?_, by decide, by decide⟩
  · constructor
    · intro h
      by_contra hc
      rw [eItemTypeOfInt_eq_none i hc] at h
      simp at h
    · rintro ⟨h0, h10⟩
      interval_cases i <;> decide
  · by_cases hc : 0 ≤ i ∧ i ≤ 10
    · obtain ⟨h0, h10⟩ := hc
      interval_cases i <;> (simp [eItemTypeOfInt] at h; subst h; decide)
    · rw [eItemTypeOfInt_eq_none i hc] at h
      cases h

/-- C2 amended witness: value 7 is a member (`DECORATION`), so lookup
succeeds and the member carries that value. -/
theorem c2_enum_amended_witness :
    (eItemTypeOfInt 7).isSome ∧ EItemType.DECORATION.value = 7 :=
  ⟨(c2_enum_amended.1 7).mpr (by decide),
   c2_enum_amended.2.1 7 .DECORATION (by decide)⟩

/-! ### C10 — negative array counts -/

/-- C10: every generated array decode runs
`[<element> for i in range(<count>)]`; when the 4-byte signed count is
negative, `range` is empty, so the field becomes the empty list, exactly
the 4 count bytes are consumed, and no error is raised — for object
arrays, int32 arrays and double arrays alike. -/
theorem c10_negative_array_count (s : RState)
    (hneg : intFromBytesLE (s.rem.take 4) < 0) (hlen : 4 ≤ s.rem.length) :
    read_array_int32 s = .ok ([], ⟨s.data, s.pos + 4⟩) ∧
    read_array_double s = .ok ([], ⟨s.data, s.pos + 4⟩) ∧
    read_array decodeStringProto s = .ok ([], ⟨s.data, s.pos + 4⟩) := by
  have h1 := read_int32_of_le s hlen
  have h0 : (intFromBytesLE (s.rem.take 4)).toNat = 0 := by omega
  refine ⟨?_, ?_, ?_⟩ <;>
    simp [read_array_int32, read_array_double, read_array, h1, h0, readLoop]

/-- C10 witness: a stream whose count bytes encode `-1` followed by three
stray bytes. -/
theorem c10_negative_array_count_witness :
    read_array_int32 ⟨[255, 255, 255, 255, 1, 2, 3], 0⟩ =
      .ok ([], ⟨[255, 255, 255, 255, 1, 2, 3], 4⟩) ∧
    read_array_double ⟨[255, 255, 255, 255, 1, 2, 3], 0⟩ =
      .ok ([], ⟨[255, 255, 255, 255, 1, 2, 3], 4⟩) ∧
    read_array decodeStringProto ⟨[255, 255, 255, 255, 1, 2, 3], 0⟩ =
      .ok ([], ⟨[255, 255, 255, 255, 1, 2, 3], 4⟩) :=
  c10_negative_array_count ⟨[255, 255, 255, 255, 1, 2, 3], 0⟩
    (by decide) (by decide)

/-! ### C4 — envelope detection -/

/-- C4: if the first 16 bytes equal the fixed pattern, `_Reader.__init__`
consumes exactly `28 + (4 + L + ((-L) mod 4))` bytes — the envelope plus
the length-prefixed embedded file name of byte length `L` — before payload
decoding begins; if they differ in any way, payload decoding begins at
offset 0 with nothing consumed. -/
theorem c4_envelope_detection (data : List Nat) :
    (data.take 16 ≠ envelopePattern → readerInit data = .ok ⟨data, 0⟩) ∧
    (∀ (L : Int) (str : String),
      data.take 16 = envelopePattern →
      intFromBytesLE ((data.drop 28).take 4) = L →
      0 ≤ L →
      pyDecode ((data.drop 32).take L.toNat) = some str →
      32 + L.toNat + ((-L) % 4).toNat ≤ data.length →
      readerInit data = .ok ⟨data, 28 + (4 + L.toNat + ((-L) % 4).toNat)⟩) := by
  constructor
  · intro hne
    unfold readerInit
    rw [if_neg hne]
  · intro L str hpat hL h0 hdec hlen
    unfold readerInit
    rw [if_pos hpat]
    have hrem0 : (RState.mk data 0).rem = data := by simp [RState.rem]
    have h28 : readBytes ⟨data, 0⟩ 28 = (data.take 28, ⟨data, 28⟩) := by
      rw [readBytes_of_le ⟨data, 0⟩ 28 (by omega) (by rw [hrem0]; omega)]
      rw [hrem0]
      rfl
    rw [h28]
    have hrem28 : (RState.mk data 28).rem = data.drop 28 := by simp [RState.rem]
    have hs : read_string ⟨data, 28⟩ =
        .ok (str, ⟨data, 28 + (4 + L.toNat + ((-L) % 4).toNat)⟩) := by
      apply read_string_of_wf ⟨data, 28⟩ L str
      · rw [hrem28]; exact hL
      · exact h0
      · rw [hrem28, List.drop_drop]
        norm_num
        exact hdec
      · rw [hrem28, List.length_drop]; omega
    dsimp only
    rw [hs]

/-- A wrapped stream used as the C4 witness: the envelope pattern, the
second 12-byte PPtr, the length-prefixed name `Test`, then 3 payload
bytes. -/
def envTestData : List Nat :=
  envelopePattern ++ List.replicate 12 0 ++
    [4, 0, 0, 0, 84, 101, 115, 116, 9, 9, 9]

/-- C4 witness: the wrapped stream whose envelope carries the 4-byte name
`Test` (consumed prefix `28 + 4 + 4 + 0 = 36`), and an unwrapped stream
`[1, 2, 3]` decoded from offset 0. -/
theorem c4_envelope_detection_witness :
    readerInit envTestData = .ok ⟨envTestData, 36⟩ ∧
    readerInit [1, 2, 3] = .ok ⟨[1, 2, 3], 0⟩ := by
  constructor
  · have h := (c4_envelope_detection envTestData).2 4 "Test"
      (by decide) (by decide) (by decide) (by decide) (by decide)
    exact h.trans (by decide)
  · exact (c4_envelope_detection [1, 2, 3]).1 (by decide)

/-! ### C5 — string field decoding -/

/-- C5: a string field reads a 4-byte little-endian signed length `L`, then
`L` bytes decoded as UTF-8, then `(-L) mod 4` padding bytes, consuming
`4 + L + ((-L) mod 4)` bytes in total — `12` for a length-5 string, `8`
for a length-4 string — and the field value is the UTF-8 decoding of
exactly those `L` payload bytes. -/
theorem c5_string_field (s : RState) (L : Int) (str : String)
    (hL : intFromBytesLE (s.rem.take 4) = L) (h0 : 0 ≤ L)
    (hdec : pyDecode ((s.rem.drop 4).take L.toNat) = some str)
    (hlen : 4 + L.toNat + ((-L) % 4).toNat ≤ s.rem.length) :
    read_string s = .ok (str, ⟨s.data, s.pos + (4 + L.toNat + ((-L) % 4).toNat)⟩) ∧
    (L = 5 → 4 + L.toNat + ((-L) % 4).toNat = 12) ∧
    (L = 4 → 4 + L.toNat + ((-L) % 4).toNat = 8) := by
  refine ⟨read_string_of_wf s L str hL h0 hdec hlen, ?_, ?_⟩ <;> (rintro rfl; decide)

/-- C5 witness: `"hello"` (length 5) consumes exactly 12 bytes and `"Test"`
(length 4) exactly 8. -/
theorem c5_string_field_witness :
    read_string ⟨[5, 0, 0, 0, 104, 101, 108, 108, 111, 0, 0, 0], 0⟩ =
      .ok ("hello", ⟨[5, 0, 0, 0, 104, 101, 108, 108, 111, 0, 0, 0], 12⟩) ∧
    read_string ⟨[4, 0, 0, 0, 84, 101, 115, 116], 0⟩ =
      .ok ("Test", ⟨[4, 0, 0, 0, 84, 101, 115, 116], 8⟩) := by
  constructor
  · have h := (c5_string_field ⟨[5, 0, 0, 0, 104, 101, 108, 108, 111, 0, 0, 0], 0⟩
      5 "hello" (by decide) (by decide) (by decide) (by decide)).1
    exact h.trans (by decide)
  · have h := (c5_string_field ⟨[4, 0, 0, 0, 84, 101, 115, 116], 0⟩
      4 "Test" (by decide) (by decide) (by decide) (by decide)).1
    exact h.trans (by decide)

/-! ### C6 — generated traversal order -/

/-- C6: the generated `do_all` visits the record itself first, then its
object-array fields in declared order and array elements in element order,
skipping falsy objects and empty arrays without a placeholder visit: for a
record `A` with fields `F1 = [B, C]` then `F2 = [D]`, the visit sequence is
the node followed by the traversals of `B`, `C`, `D`; on leaf children the
class-name trace is exactly `["A", "B", "C", "D"]`. -/
theorem c6_traversal_order (b c d : Node) :
    nodeDoAll (.mk "A" [.arrF [.node b, .node c], .arrF [.node d]]) =
      .mk "A" [.arrF [.node b, .node c], .arrF [.node d]] ::
        (nodeDoAll b ++ nodeDoAll c ++ nodeDoAll d) ∧
    (nodeDoAll (.mk "A" [.arrF [.node (.mk "B" []), .node (.mk "C" [])],
        .arrF [.node (.mk "D" [])]])).map Node.ty = ["A", "B", "C", "D"] ∧
    nodeDoAll (.mk "A" [.objF .null, .arrF [], .prim]) =
      [.mk "A" [.objF .null, .arrF [], .prim]] := by
  refine ⟨?_, ?_, ?_⟩ <;>
    simp [nodeDoAll, fieldsDoAll, fieldDoAll, elemsDoAll, objValDoAll, Node.ty]

/-! ### C3 — bundle traversal -/

/-- C3: contrary to the claim (and to `do_all`'s own docstring), passing a
`GameData` bundle to `do_all` does not traverse its record sets: the
generated branch iterates `for i in val` over each non-`backers` field
value, but those values are `...ProtoSet` `Object`s, which are not
iterable, so `TypeError` is raised before any visit.  This holds for every
bundle with the four record sets `load_all` produces. -/
theorem c3_gamedata_type_error (n1 n2 n3 n4 : Node) :
    do_all (.gameData [("ItemProtoSet", n1), ("RecipeProtoSet", n2),
      ("StringProtoSet", n3), ("TechProtoSet", n4)]) = .error .typeError := by
  simp [do_all, gameDataDoAll]

/-! ### C7 — find_all agrees with the traversal -/

/-- Folding the accumulator update of `find_fun` over a visit list collects
exactly the matching visits, in order. -/
theorem foldl_collect (cls : String) (visits : List Node) (acc : List Node) :
    visits.foldl (fun acc n => if n.ty = cls then acc ++ [n] else acc) acc =
      acc ++ visits.filter (fun n => decide (n.ty = cls)) := by
  induction visits generalizing acc with
  | nil => simp
  | cons vhead vtail ihv =>
    simp only [List.foldl_cons, List.filter_cons]
    by_cases hv : vhead.ty = cls
    · rw [if_pos hv, ihv]
      simp [hv]
    · rw [if_neg hv, ihv]
      simp [hv]

/-- C7: for every root and class, `find_all(root, cls)` returns exactly the
visited nodes of `do_all(root, ·)` whose class equals `cls`, in visitation
order (duplicates included, since the visit list keeps every occurrence);
on roots where the traversal raises, `find_all` raises the same error. -/
theorem c7_find_all_filter (root : Root) (cls : String) :
    find_all root cls =
      Except.map (fun visits => visits.filter (fun n => decide (n.ty = cls)))
        (do_all root) := by
  unfold find_all
  cases h : do_all root with
  | error e => rfl
  | ok visits =>
    show Except.ok (visits.foldl (fun acc n => if n.ty = cls then acc ++ [n] else acc) []) =
      Except.map (fun visits => visits.filter (fun n => decide (n.ty = cls))) (.ok visits)
    rw [foldl_collect]
    rfl

/-! ### C8 — default construction with overrides -/

/-- Setting a slot other than the one looked up changes nothing. -/
theorem getField_setField_ne (fs : List (String × PyVal)) (k n : String)
    (w : PyVal) (h : n ≠ k) :
    getField (setField fs k w) n = getField fs n := by
  induction fs with
  | nil => rfl
  | cons a rest ih =>
    obtain ⟨a1, a2⟩ := a
    by_cases hak : a1 = k
    · rw [setField, if_pos hak]
      rw [getField, getField, if_neg (by rw [hak]; exact fun hh => h hh.symm),
        if_neg (by rw [hak]; exact fun hh => h hh.symm)]
      exact ih
    · rw [setField, if_neg hak]
      by_cases han : a1 = n
      · rw [getField, getField, if_pos han, if_pos han]
      · rw [getField, getField, if_neg han, if_neg han]
        exact ih

/-- Setting an existing slot makes the lookup return the new value. -/
theorem getField_setField_eq (fs : List (String × PyVal)) (k : String)
    (w : PyVal) (h : (getField fs k).isSome) :
    getField (setField fs k w) k = some w := by
  induction fs with
  | nil => simp [getField] at h
  | cons a rest ih =>
    obtain ⟨a1, a2⟩ := a
    by_cases hak : a1 = k
    · rw [setField, if_pos hak, getField, if_pos hak]
    · rw [setField, if_neg hak, getField, if_neg hak]
      rw [getField, if_neg hak] at h
      exact ih h

/-- Setting a slot never changes which slots exist. -/
theorem isSome_getField_setField (fs : List (String × PyVal)) (k n : String)
    (w : PyVal) :
    (getField (setField fs k w) n).isSome = (getField fs n).isSome := by
  induction fs with
  | nil => rfl
  | cons a rest ih =>
    obtain ⟨a1, a2⟩ := a
    by_cases hak : a1 = k
    · by_cases han : a1 = n
      · rw [setField, if_pos hak, getField, getField, if_pos han, if_pos han]
        rfl
      · rw [setField, if_pos hak, getField, getField, if_neg han, if_neg han]
        exact ih
    · by_cases han : a1 = n
      · rw [setField, if_neg hak, getField, getField, if_pos han, if_pos han]
      · rw [setField, if_neg hak, getField, getField, if_neg han, if_neg han]
        exact ih

/-- A lookup misses exactly when the name is not among the slots. -/
theorem getField_eq_none_iff (fs : List (String × PyVal)) (n : String) :
    getField fs n = none ↔ n ∉ fs.map Prod.fst := by
  induction fs with
  | nil => simp [getField]
  | cons a rest ih =>
    obtain ⟨a1, a2⟩ := a
    by_cases han : a1 = n
    · rw [getField, if_pos han]
      simp [han]
    · rw [getField, if_neg han]
      simp only [List.map_cons, List.mem_cons]
      rw [ih]
      constructor
      · rintro hni (h1 | h2)
        · exact han h1.symm
        · exact hni h2
      · intro hni
        exact fun h2 => hni (Or.inr h2)

/-- Looking a declared field up in the freshly written defaults yields its
type's default. -/
theorem getField_defaults (layout : Layout) (n typ : String)
    (hlay : (layout.map Prod.fst).Nodup) (hmem : (n, typ) ∈ layout) :
    getField (layout.map (fun p => (p.1, defaultValue p.2))) n =
      some (defaultValue typ) := by
  induction layout with
  | nil => cases hmem
  | cons a rest ih =>
    obtain ⟨a1, a2⟩ := a
    rw [List.map_cons, getField]
    rcases List.mem_cons.mp hmem with h1 | h2
    · obtain ⟨e1, e2⟩ := Prod.mk.injEq .. ▸ h1
      rw [if_pos (by rw [e1])]
      rw [e2]
    · have ha1 : a1 ≠ n := by
        intro he
        have : n ∈ rest.map Prod.fst :=
          List.mem_map.mpr ⟨(n, typ), h2, rfl⟩
        have := (List.nodup_cons.mp hlay).1
        rw [he] at this
        exact this ‹n ∈ rest.map Prod.fst›
      rw [if_neg ha1]
      exact ih (List.nodup_cons.mp hlay).2 h2

/-- Applying the `kwargs` loop of the generated `__init__` on top of any
slot assignment: a slot named in `kwargs` ends with its supplied value,
every other slot is untouched. -/
theorem foldl_setField (kwargs : List (String × PyVal))
    (fs : List (String × PyVal)) (n : String)
    (hnodup : (kwargs.map Prod.fst).Nodup)
    (hdom : ∀ k ∈ kwargs.map Prod.fst, (getField fs k).isSome) :
    getField (kwargs.foldl (fun a kv => setField a kv.1 kv.2) fs) n =
      (getField kwargs n).or (getField fs n) := by
  induction kwargs generalizing fs with
  | nil => rfl
  | cons kv rest ih =>
    obtain ⟨k, v⟩ := kv
    rw [List.foldl_cons]
    have hk : (getField fs k).isSome := hdom k (by simp)
    have hnodup' : (rest.map Prod.fst).Nodup :=
      (List.nodup_cons.mp (by simpa using hnodup)).2
    have hdom' : ∀ k' ∈ rest.map Prod.fst, (getField (setField fs k v) k').isSome := by
      intro k' hk'
      rw [isSome_getField_setField]
      exact hdom k' (by simp [hk'])
    rw [ih (setField fs k v) hnodup' hdom']
    by_cases hn : n = k
    · subst hn
      have hrest : getField rest n = none := by
        rw [getField_eq_none_iff]
        exact (List.nodup_cons.mp (by simpa using hnodup)).1
      rw [hrest, getField, if_pos rfl]
      rw [getField_setField_eq fs n v hk]
      rfl
    · rw [getField_setField_ne fs k n v hn, getField, if_neg (fun h => hn h.symm)]

/-- C8: constructing a record without a reader writes every slot's
type-derived zero value (`0` for `int32`/`int64`/`float`/`enum`, `False`
for `bool`, `''` for `string`, `[]` for every array flavour), then applies
the caller's overrides — so an overridden slot holds the supplied value
and every other slot its default. -/
theorem c8_default_construction (layout : Layout) (kwargs : List (String × PyVal))
    (n typ : String)
    (hlay : (layout.map Prod.fst).Nodup)
    (hkw : (kwargs.map Prod.fst).Nodup)
    (hsub : ∀ k ∈ kwargs.map Prod.fst, k ∈ layout.map Prod.fst)
    (hmem : (n, typ) ∈ layout) :
    getField (object_init layout kwargs) n =
      some ((getField kwargs n).getD (defaultValue typ)) ∧
    (defaultValue "int32()" = .vint 0 ∧ defaultValue "int64()" = .vint 0 ∧
     defaultValue "float()" = .vint 0 ∧ defaultValue "enum(EItemType)" = .vint 0 ∧
     defaultValue "bool()" = .vbool false ∧ defaultValue "string()" = .vstr "" ∧
     defaultValue "array_int32()" = .vlist [] ∧
     defaultValue "array_double()" = .vlist [] ∧
     defaultValue "array(ItemProto)" = .vlist []) := by
  refine ⟨?_, ⟨rfl, rfl, rfl, rfl, rfl, rfl, rfl, rfl, rfl⟩⟩
  have hdefaults : (layout.map (fun p => (p.1, defaultValue p.2))).map Prod.fst =
      layout.map Prod.fst := by
    rw [List.map_map]
    rfl
  have hdom : ∀ k ∈ kwargs.map Prod.fst,
      (getField (layout.map (fun p => (p.1, defaultValue p.2))) k).isSome := by
    intro k hk
    by_contra hns
    have : getField (layout.map (fun p => (p.1, defaultValue p.2))) k = none := by
      cases h : getField (layout.map (fun p => (p.1, defaultValue p.2))) k with
      | none => rfl
      | some v => rw [h] at hns; simp at hns
    rw [getField_eq_none_iff, hdefaults] at this
    exact this (hsub k hk)
  rw [object_init, foldl_setField kwargs _ n hkw hdom,
    getField_defaults layout n typ hlay hmem]
  cases getField kwargs n <;> rfl

/-- C8 witness: default-constructing an `ItemProto` with the single
override `id=1005` leaves `name` at `''`, `upgrades` at `[]`, `is_fluid`
at `False`, `stack_size` at `0`, and stores the override. -/
theorem c8_default_construction_witness :
    getField (object_init itemProtoLayout [("id", PyVal.vint 1005)]) "id" =
      some (PyVal.vint 1005) ∧
    getField (object_init itemProtoLayout [("id", PyVal.vint 1005)]) "name" =
      some (PyVal.vstr "") ∧
    getField (object_init itemProtoLayout [("id", PyVal.vint 1005)]) "upgrades" =
      some (PyVal.vlist []) ∧
    getField (object_init itemProtoLayout [("id", PyVal.vint 1005)]) "is_fluid" =
      some (PyVal.vbool false) ∧
    getField (object_init itemProtoLayout [("id", PyVal.vint 1005)]) "stack_size" =
      some (PyVal.vint 0) := by
  have hlay : (itemProtoLayout.map Prod.fst).Nodup := by decide
  have hkw : (([("id", PyVal.vint 1005)]).map Prod.fst).Nodup := by decide
  have hsub : ∀ k ∈ ([("id", PyVal.vint 1005)]).map Prod.fst,
      k ∈ itemProtoLayout.map Prod.fst := by decide
  refine ⟨?_, ?_, ?_, ?_, ?_⟩
  · exact ((c8_default_construction itemProtoLayout [("id", PyVal.vint 1005)]
      "id" "int32()" hlay hkw hsub (by decide)).1).trans rfl
  · exact ((c8_default_construction itemProtoLayout [("id", PyVal.vint 1005)]
      "name" "string()" hlay hkw hsub (by decide)).1).trans rfl
  · exact ((c8_default_construction itemProtoLayout [("id", PyVal.vint 1005)]
      "upgrades" "array_int32()" hlay hkw hsub (by decide)).1).trans rfl
  · exact ((c8_default_construction itemProtoLayout [("id", PyVal.vint 1005)]
      "is_fluid" "bool()" hlay hkw hsub (by decide)).1).trans rfl
  · exact ((c8_default_construction itemProtoLayout [("id", PyVal.vint 1005)]
      "stack_size" "int32()" hlay hkw hsub (by decide)).1).trans rfl

/-! ### C9 — compact render -/

/-- C9: for every slot assignment, the compact render (`__str__`) lists
exactly the fields whose value is truthy (non-zero / non-empty /
non-false), with `id`, `name`, `description` ordered first when the schema
has them, and the remaining listed fields in declared order — here for the
`ItemProto` schema (all three front names present) and the `StringProto`
schema (no `description` field). -/
theorem c9_compact_render (vals : String → PyVal) :
    strNames itemProtoLayout vals =
      (["id", "name", "description", "sid", "type", "sub_id", "mining_from",
        "produce_from", "stack_size", "grade", "upgrades", "is_fluid",
        "is_entity", "can_build", "build_in_gas", "icon_path", "model_index",
        "model_count", "hp_max", "ability", "heat_value", "potential",
        "reactor_inc", "fuel_type", "build_index", "build_mode", "grid_index",
        "unlock_key", "pre_tech_override", "productive", "mecha_material_id",
        "desc_fields"]).filter (fun n => truthy (vals n)) ∧
    strNames stringProtoLayout vals =
      (["id", "name", "sid", "zh_cn", "en_us", "fr_fr"]).filter
        (fun n => truthy (vals n)) := by
  constructor
  · have h : strAttrs itemProtoLayout =
        ["id", "name", "description", "sid", "type", "sub_id", "mining_from",
         "produce_from", "stack_size", "grade", "upgrades", "is_fluid",
         "is_entity", "can_build", "build_in_gas", "icon_path", "model_index",
         "model_count", "hp_max", "ability", "heat_value", "potential",
         "reactor_inc", "fuel_type", "build_index", "build_mode", "grid_index",
         "unlock_key", "pre_tech_override", "productive", "mecha_material_id",
         "desc_fields"] := by decide
    rw [strNames, h]
  · have h : strAttrs stringProtoLayout =
        ["id", "name", "sid", "zh_cn", "en_us", "fr_fr"] := by decide
    rw [strNames, h]

end DysonSphere
